import Mathlib

/-!
Shallow embedding of the AdamW optimizer from `src/optimizer.py` of the
minllama-assignment repository.

Tensors are modelled as lists of rationals.  The tensor backend's square
root (an external collaborator in the design: `torch`'s `sqrt`) is passed
in as an abstract function `sqrtA : ℚ → ℚ`; every theorem about the update
rule holds for an arbitrary such function, and concrete witnesses
instantiate it with an exact rational square root on perfect squares.

State is passed explicitly: a `Store` holds the externally owned parameter
tensors (by integer id) together with the optimizer's lazily created
per-parameter state map.  A `step` that raises mid-iteration returns
`Outcome.raised`, carrying the partially mutated store, since the Python
code mutates tensors in place before the exception propagates.
-/

/-- A tensor value: a flat list of rational entries. -/
abbrev Tensor := List ℚ

/-- A gradient attached to a parameter: either dense (with its entries) or
sparse, mirroring `p.grad.data` and the `grad.is_sparse` test. -/
inductive Grad where
  | dense (g : Tensor)
  | sparse
deriving DecidableEq, Repr

/-- Per-parameter optimizer state, mirroring the `state` dict entries
`state["step"]`, `state["exp_avg"]`, `state["exp_avg_sq"]`. -/
structure ParamState where
  step : ℕ
  exp_avg : Tensor
  exp_avg_sq : Tensor
deriving DecidableEq, Repr

/-- One group's hyperparameters, mirroring the `group` dict read in
`AdamW.step` (`lr`, `betas`, `eps`, `weight_decay`, `correct_bias`). -/
structure Config where
  lr : ℚ
  beta1 : ℚ
  beta2 : ℚ
  eps : ℚ
  weight_decay : ℚ
  correct_bias : Bool
deriving DecidableEq, Repr

/-- A parameter group: a hyperparameter configuration plus the ids of the
parameters belonging to the group, mirroring `group["params"]`. -/
structure ParamGroup where
  cfg : Config
  params : List ℕ

/-- The mutable world of one optimizer: the externally owned parameter
tensors (indexed by id) and the optimizer's own per-parameter state map
(`self.state`, absent entries model `len(state) == 0`). -/
structure Store where
  params : ℕ → Tensor
  st : ℕ → Option ParamState

/-- Construction-time errors, one per `raise ValueError` site in
`AdamW.__init__`. -/
inductive ConfigError where
  | invalidLR
  | invalidBeta1
  | invalidBeta2
  | invalidEps
deriving DecidableEq, Repr

/-- Step-time errors: the single `raise RuntimeError` for sparse
gradients. -/
inductive StepError where
  | unsupportedSparse
deriving DecidableEq, Repr

/-- Result of a stateful pass that may raise: either it completed, or an
error propagated with the in-place mutations made so far retained. -/
inductive Outcome (α : Type) where
  | ok (a : α)
  | raised (e : StepError) (a : α)
deriving DecidableEq, Repr

/-- The state carried by an outcome, whether or not an error was raised. -/
def Outcome.val {α : Type} : Outcome α → α
  | .ok a => a
  | .raised _ a => a

/-- The optimizer object produced by `AdamW.__init__`: its parameter
groups (each holding the validated defaults) and its state map. -/
structure AdamW where
  groups : List ParamGroup
  st : ℕ → Option ParamState

/-- The all-zero tensor builder `torch.zeros_like(p.data)`. -/
def zerosLike (x : Tensor) : Tensor := List.replicate x.length 0

/-- The constructor `AdamW.__init__`: validates `lr`, `betas[0]`, `betas[1]`, `eps` in that
order and, on success, builds the optimizer with the given defaults
attached to every group and an empty state map. -/
def AdamW.init (paramGroups : List (List ℕ)) (lr beta1 beta2 eps weight_decay : ℚ)
    (correct_bias : Bool) : Except ConfigError AdamW :=
  if lr < 0 then .error .invalidLR
  else if ¬ (0 ≤ beta1 ∧ beta1 < 1) then .error .invalidBeta1
  else if ¬ (0 ≤ beta2 ∧ beta2 < 1) then .error .invalidBeta2
  else if ¬ (0 ≤ eps) then .error .invalidEps
  else .ok
    { groups := paramGroups.map (fun ids =>
        { cfg := { lr := lr, beta1 := beta1, beta2 := beta2, eps := eps,
                   weight_decay := weight_decay, correct_bias := correct_bias },
          params := ids })
      st := fun _ => none }

/-- The effective step size of one update (`step_size` in the source):
bias-corrected from the post-increment step count when `correct_bias`
holds, the raw learning rate otherwise. -/
def stepSize (sqrtA : ℚ → ℚ) (cfg : Config) (t : ℕ) : ℚ :=
  if cfg.correct_bias then
    cfg.lr * sqrtA (1 - cfg.beta2 ^ t) / (1 - cfg.beta1 ^ t)
  else cfg.lr

/-- The lazily created initial state (`state["step"] = 0`, zero moment
tensors shaped like the parameter, as when `len(state) == 0`). -/
def initState (x : Tensor) : ParamState :=
  { step := 0, exp_avg := zerosLike x, exp_avg_sq := zerosLike x }

/-- Lines 59-61 of the source: increment the step count and form the new
exponential moving averages of the gradient and its element-wise
square. -/
def ParamState.update (cfg : Config) (st0 : ParamState) (grad : Tensor) : ParamState :=
  { step := st0.step + 1,
    exp_avg := List.zipWith (fun mi gi => cfg.beta1 * mi + (1 - cfg.beta1) * gi)
      st0.exp_avg grad,
    exp_avg_sq := List.zipWith (fun vi gi => cfg.beta2 * vi + (1 - cfg.beta2) * gi ^ 2)
      st0.exp_avg_sq grad }

/-- Lines 72-77 of the source: from the already-updated state `st1`,
build `denom = exp_avg_sq.sqrt().add_(eps)`, apply
`p.data.addcdiv_(exp_avg, denom, value=-step_size)` and then, when
`weight_decay != 0`, the decoupled decay
`p.data.add_(p.data, alpha=-alpha * weight_decay)`. -/
def paramUpdate (sqrtA : ℚ → ℚ) (cfg : Config) (st1 : ParamState) (x : Tensor) : Tensor :=
  let ss := stepSize sqrtA cfg st1.step
  let denom := st1.exp_avg_sq.map (fun vi => sqrtA vi + cfg.eps)
  let x1 := List.zipWith3 (fun xi mi di => xi + (-ss) * (mi / di)) x st1.exp_avg denom
  if cfg.weight_decay ≠ 0 then
    x1.map (fun xi => xi + (-(cfg.lr * cfg.weight_decay)) * xi)
  else x1

/-- The body of the inner loop of `AdamW.step` for one parameter `p`:
skip if no gradient, raise on a sparse gradient, otherwise lazily
initialise state, update the moments and write back the new state and
the new parameter value. -/
def stepParam (sqrtA : ℚ → ℚ) (cfg : Config) (grads : ℕ → Option Grad) (p : ℕ)
    (s : Store) : Outcome Store :=
  match grads p with
  | none => .ok s
  | some .sparse => .raised .unsupportedSparse s
  | some (.dense grad) =>
      let st1 := ((s.st p).getD (initState (s.params p))).update cfg grad
      .ok { params := fun q => if q = p then paramUpdate sqrtA cfg st1 (s.params p)
                               else s.params q,
            st := fun q => if q = p then some st1 else s.st q }

/-- The inner loop `for p in group["params"]`, stopping at the first
raised error (the exception propagates out of `step`). -/
def runParams (sqrtA : ℚ → ℚ) (cfg : Config) (grads : ℕ → Option Grad) :
    List ℕ → Store → Outcome Store
  | [], s => .ok s
  | p :: ps, s =>
      match stepParam sqrtA cfg grads p s with
      | .ok s' => runParams sqrtA cfg grads ps s'
      | .raised e s' => .raised e s'

/-- The outer loop `for group in self.param_groups`. -/
def runGroups (sqrtA : ℚ → ℚ) (grads : ℕ → Option Grad) :
    List ParamGroup → Store → Outcome Store
  | [], s => .ok s
  | g :: gs, s =>
      match runParams sqrtA g.cfg grads g.params s with
      | .ok s' => runGroups sqrtA grads gs s'
      | .raised e s' => .raised e s'

/-- The operation `AdamW.step`: the optional zero-argument closure is an explicit
state-passing function `C → L × C` so that "invoked exactly once, at the
start" is observable; its result and the loop's outcome are returned
side by side (the closure's effect persists even when the loop raises,
as in the Python code where the mutations precede the exception). -/
def AdamW.step {C L : Type} (sqrtA : ℚ → ℚ) (opt : AdamW) (grads : ℕ → Option Grad)
    (closure : Option (C → L × C)) (c : C) (params : ℕ → Tensor) :
    (Option L × C) × Outcome Store :=
  let loss : Option L × C :=
    match closure with
    | none => (none, c)
    | some f => let r := f c; (some r.1, r.2)
  (loss, runGroups sqrtA grads opt.groups { params := params, st := opt.st })

/-- Iterating the step loop `n` times with fixed gradients, continuing
from whatever store each call leaves behind. -/
def stepLoop (sqrtA : ℚ → ℚ) (grads : ℕ → Option Grad) (groups : List ParamGroup) :
    ℕ → Store → Store
  | 0, s => s
  | n + 1, s => stepLoop sqrtA grads groups n (runGroups sqrtA grads groups s).val

/-- Largest `k ≤ fuel` with `k * k ≤ n`, by structural recursion (so the
kernel can evaluate it). -/
def isqrtGo (n : ℕ) : ℕ → ℕ
  | 0 => 0
  | k + 1 => if (k + 1) * (k + 1) ≤ n then k + 1 else isqrtGo n k

/-- Exact square root on rationals whose numerator and denominator are
perfect squares; used to instantiate the abstract backend `sqrtA` in
concrete witnesses. -/
def ratSqrt (q : ℚ) : ℚ := (isqrtGo q.num.toNat q.num.toNat : ℚ) / (isqrtGo q.den q.den : ℚ)

/-- A concrete backend square root given by a finite table: the three
exact square roots that the nonlinearity runs consult. -/
def sqrtW : ℚ → ℚ := fun q =>
  if q = 1/25 then 1/5 else if q = 49/625 then 7/25 else if q = 4/25 then 2/5 else 0

/-! ### Basic lemmas about the loop structure -/

/-- A parameter with no attached gradient is skipped: the store is
returned untouched. -/
theorem stepParam_nograd {sqrtA cfg grads p s} (h : grads p = none) :
    stepParam sqrtA cfg grads p s = .ok s := by
  simp [stepParam, h]

/-- A sparse gradient raises, with the store untouched. -/
theorem stepParam_sparse {sqrtA cfg grads p s} (h : grads p = some .sparse) :
    stepParam sqrtA cfg grads p s = .raised .unsupportedSparse s := by
  simp [stepParam, h]

/-- A dense gradient produces a normal (`ok`) result with the new state
and new parameter value written at `p` and everything else unchanged. -/
theorem stepParam_dense {sqrtA cfg grads p s g} (h : grads p = some (.dense g)) :
    stepParam sqrtA cfg grads p s =
      .ok { params := fun q =>
              if q = p then
                paramUpdate sqrtA cfg (((s.st p).getD (initState (s.params p))).update cfg g)
                  (s.params p)
              else s.params q,
            st := fun q =>
              if q = p then some (((s.st p).getD (initState (s.params p))).update cfg g)
              else s.st q } := by
  simp [stepParam, h]

/-- One loop-body execution touches only the parameter it processes. -/
theorem stepParam_apart (sqrtA : ℚ → ℚ) (cfg : Config) (grads : ℕ → Option Grad)
    (p : ℕ) (s : Store) (q : ℕ) (hq : q ≠ p) :
    ((stepParam sqrtA cfg grads p s).val).params q = s.params q ∧
      ((stepParam sqrtA cfg grads p s).val).st q = s.st q := by
  match hg : grads p with
  | none => rw [stepParam_nograd hg]; exact ⟨rfl, rfl⟩
  | some .sparse => rw [stepParam_sparse hg]; exact ⟨rfl, rfl⟩
  | some (.dense g) => rw [stepParam_dense hg]; simp [Outcome.val, hq]

/-- The inner loop touches only parameters occurring in its list. -/
theorem runParams_not_mem (sqrtA : ℚ → ℚ) (cfg : Config) (grads : ℕ → Option Grad)
    (ps : List ℕ) (s : Store) (q : ℕ)
    (hq : q ∉ ps) :
    ((runParams sqrtA cfg grads ps s).val).params q = s.params q ∧
      ((runParams sqrtA cfg grads ps s).val).st q = s.st q := by
  induction ps generalizing s with
  | nil => exact ⟨rfl, rfl⟩
  | cons p ps ih =>
      have hqp : q ≠ p := fun h => hq (h ▸ List.mem_cons_self p ps)
      have htl : q ∉ ps := fun h => hq (List.mem_cons_of_mem p h)
      have h1 := stepParam_apart sqrtA cfg grads p s q hqp
      rw [runParams]
      cases hs : stepParam sqrtA cfg grads p s with
      | ok s' =>
          have h2 := ih s' htl
          rw [hs] at h1
          exact ⟨h2.1.trans h1.1, h2.2.trans h1.2⟩
      | raised e s' =>
          rw [hs] at h1
          exact h1

/-- The outer loop touches only parameters occurring in some group. -/
theorem runGroups_not_mem (sqrtA : ℚ → ℚ) (grads : ℕ → Option Grad)
    (gs : List ParamGroup) (s : Store) (q : ℕ)
    (hq : ∀ g ∈ gs, q ∉ g.params) :
    ((runGroups sqrtA grads gs s).val).params q = s.params q ∧
      ((runGroups sqrtA grads gs s).val).st q = s.st q := by
  induction gs generalizing s with
  | nil => exact ⟨rfl, rfl⟩
  | cons g gs ih =>
      have h1 := runParams_not_mem sqrtA g.cfg grads g.params s q
        (hq g (List.mem_cons_self g gs))
      rw [runGroups]
      cases hs : runParams sqrtA g.cfg grads g.params s with
      | ok s' =>
          have h2 := ih s' (fun g' hg' => hq g' (List.mem_cons_of_mem g hg'))
          rw [hs] at h1
          exact ⟨h2.1.trans h1.1, h2.2.trans h1.2⟩
      | raised e s' =>
          rw [hs] at h1
          exact h1

/-! ### C6: constructor validation -/

/-- C6: construction fails if and only if `learning_rate < 0`, or `beta1`
outside `[0,1)`, or `beta2` outside `[0,1)`, or `epsilon < 0`; each
violated condition reports its own error variant (in the source's
checking order), and on valid hyperparameters construction succeeds with
an empty per-parameter state map. -/
theorem adamw_init_validation (paramGroups : List (List ℕ))
    (lr beta1 beta2 eps weight_decay : ℚ) (correct_bias : Bool) :
    ((∃ e, AdamW.init paramGroups lr beta1 beta2 eps weight_decay correct_bias = .error e) ↔
      (lr < 0 ∨ ¬ (0 ≤ beta1 ∧ beta1 < 1) ∨ ¬ (0 ≤ beta2 ∧ beta2 < 1) ∨ eps < 0)) ∧
    (lr < 0 →
      AdamW.init paramGroups lr beta1 beta2 eps weight_decay correct_bias =
        .error .invalidLR) ∧
    (¬ lr < 0 → ¬ (0 ≤ beta1 ∧ beta1 < 1) →
      AdamW.init paramGroups lr beta1 beta2 eps weight_decay correct_bias =
        .error .invalidBeta1) ∧
    (¬ lr < 0 → (0 ≤ beta1 ∧ beta1 < 1) → ¬ (0 ≤ beta2 ∧ beta2 < 1) →
      AdamW.init paramGroups lr beta1 beta2 eps weight_decay correct_bias =
        .error .invalidBeta2) ∧
    (¬ lr < 0 → (0 ≤ beta1 ∧ beta1 < 1) → (0 ≤ beta2 ∧ beta2 < 1) → eps < 0 →
      AdamW.init paramGroups lr beta1 beta2 eps weight_decay correct_bias =
        .error .invalidEps) ∧
    (¬ lr < 0 → (0 ≤ beta1 ∧ beta1 < 1) → (0 ≤ beta2 ∧ beta2 < 1) → ¬ eps < 0 →
      ∃ opt, AdamW.init paramGroups lr beta1 beta2 eps weight_decay correct_bias = .ok opt ∧
        ∀ q, opt.st q = none) := by
  refine ⟨⟨?_, ?_⟩, ?_, ?_, ?_, ?_, ?_⟩
  · rintro ⟨e, he⟩
    by_contra hcon
    push_neg at hcon
    obtain ⟨hna, hnb, hnc, hnd⟩ := hcon
    unfold AdamW.init at he
    rw [if_neg (not_lt.mpr hna), if_neg (not_not_intro hnb), if_neg (not_not_intro hnc),
      if_neg (not_not_intro hnd)] at he
    exact Except.noConfusion he
  · intro hdisj
    unfold AdamW.init
    by_cases hlr : lr < 0
    · exact ⟨_, by rw [if_pos hlr]⟩
    · rw [if_neg hlr]
      by_cases hb1 : 0 ≤ beta1 ∧ beta1 < 1
      · rw [if_neg (not_not_intro hb1)]
        by_cases hb2 : 0 ≤ beta2 ∧ beta2 < 1
        · rw [if_neg (not_not_intro hb2)]
          have heps : eps < 0 := by tauto
          exact ⟨_, by rw [if_pos (not_le.mpr heps)]⟩
        · exact ⟨_, by rw [if_pos hb2]⟩
      · exact ⟨_, by rw [if_pos hb1]⟩
  · intro h
    unfold AdamW.init
    rw [if_pos h]
  · intro h1 h2
    unfold AdamW.init
    rw [if_neg h1, if_pos h2]
  · intro h1 h2 h3
    unfold AdamW.init
    rw [if_neg h1, if_neg (not_not_intro h2), if_pos h3]
  · intro h1 h2 h3 h4
    unfold AdamW.init
    rw [if_neg h1, if_neg (not_not_intro h2), if_neg (not_not_intro h3),
      if_pos (not_le.mpr h4)]
  · intro h1 h2 h3 h4
    unfold AdamW.init
    rw [if_neg h1, if_neg (not_not_intro h2), if_neg (not_not_intro h3),
      if_neg (not_not_intro (not_lt.mp h4))]
    exact ⟨_, rfl, fun q => rfl⟩

/-- Witness for C6 at concrete inputs: a negative learning rate is
rejected with the learning-rate variant. -/
theorem adamw_init_validation_witness :
    AdamW.init [[0]] (-1) (9/10) (999/1000) (1/1000000) 0 true = .error .invalidLR :=
  (adamw_init_validation [[0]] (-1) (9/10) (999/1000) (1/1000000) 0 true).2.1 (by decide)

/-! ### C10: weight_decay and correct_bias are not validated -/

/-- C10: construction performs no validation of `weight_decay` or
`correct_bias`: whenever the four checked conditions hold, construction
succeeds for every `weight_decay` (negative included) and every
`correct_bias`, and stores both values as-is in every group's
configuration (from which every later update reads them). -/
theorem adamw_weight_decay_unvalidated (paramGroups : List (List ℕ))
    (lr beta1 beta2 eps weight_decay : ℚ) (correct_bias : Bool)
    (h1 : ¬ lr < 0) (h2 : 0 ≤ beta1 ∧ beta1 < 1) (h3 : 0 ≤ beta2 ∧ beta2 < 1)
    (h4 : ¬ eps < 0) :
    ∃ opt, AdamW.init paramGroups lr beta1 beta2 eps weight_decay correct_bias = .ok opt ∧
      ∀ g ∈ opt.groups, g.cfg.weight_decay = weight_decay ∧
        g.cfg.correct_bias = correct_bias := by
  unfold AdamW.init
  rw [if_neg h1, if_neg (not_not_intro h2), if_neg (not_not_intro h3),
    if_neg (not_not_intro (not_lt.mp h4))]
  refine ⟨_, rfl, ?_⟩
  intro g hg
  simp only [List.mem_map] at hg
  obtain ⟨ids, _, rfl⟩ := hg
  exact ⟨rfl, rfl⟩

/-- Witness for C10: a negative weight decay of `-5` is accepted
unchanged. -/
theorem adamw_weight_decay_unvalidated_witness :
    ∃ opt, AdamW.init [[0]] 1 0 0 0 (-5) false = .ok opt ∧
      ∀ g ∈ opt.groups, g.cfg.weight_decay = -5 ∧ g.cfg.correct_bias = false :=
  adamw_weight_decay_unvalidated [[0]] 1 0 0 0 (-5) false
    (by decide) (by decide) (by decide) (by decide)

/-! ### List helpers -/

/-- Fusing a map over the third argument into a three-way zip. -/
theorem zipWith3_map_right {α β γ γ' δ : Type} (f : α → β → γ' → δ) (h : γ → γ')
    (as : List α) : ∀ (bs : List β) (cs : List γ),
    List.zipWith3 f as bs (cs.map h) = List.zipWith3 (fun a b c => f a b (h c)) as bs cs := by
  induction as with
  | nil => intro bs cs; rfl
  | cons a as ih =>
      intro bs cs
      cases bs with
      | nil => rfl
      | cons b bs =>
          cases cs with
          | nil => rfl
          | cons c cs =>
              simp only [List.map_cons, List.zipWith3]
              exact congrArg _ (ih bs cs)

/-- Zipping against an all-`a` list of matching length is a map. -/
theorem zipWith_replicate_left_eq {α β γ : Type} (f : α → β → γ) (a : α) :
    ∀ (l : List β) (n : ℕ), n = l.length →
      List.zipWith f (List.replicate n a) l = l.map (f a) := by
  intro l
  induction l with
  | nil => intro n hn; subst hn; rfl
  | cons b bs ih =>
      intro n hn
      subst hn
      simp only [List.length_cons, List.replicate, List.zipWith, List.map_cons]
      exact congrArg _ (ih bs.length rfl)

/-- The parameter update of one step, rewritten in the spec's shape: the
moment-based update first, then (only when `weight_decay ≠ 0`) the
decoupled shrinkage by `lr * weight_decay`. -/
theorem paramUpdate_eq (sqrtA : ℚ → ℚ) (cfg : Config) (st1 : ParamState) (x : Tensor) :
    paramUpdate sqrtA cfg st1 x =
      (let y := List.zipWith3
        (fun xi mi vi => xi - stepSize sqrtA cfg st1.step * mi / (sqrtA vi + cfg.eps))
        x st1.exp_avg st1.exp_avg_sq
       if cfg.weight_decay ≠ 0 then
         y.map (fun yi => yi - cfg.lr * cfg.weight_decay * yi)
       else y) := by
  simp only [paramUpdate]
  have hx1 : List.zipWith3
      (fun xi mi di => xi + (-stepSize sqrtA cfg st1.step) * (mi / di))
      x st1.exp_avg (st1.exp_avg_sq.map (fun vi => sqrtA vi + cfg.eps)) =
      List.zipWith3
        (fun xi mi vi => xi - stepSize sqrtA cfg st1.step * mi / (sqrtA vi + cfg.eps))
        x st1.exp_avg st1.exp_avg_sq := by
    rw [zipWith3_map_right]
    congr 1
    funext xi mi vi
    ring
  rw [hx1]
  have hdec : (fun xi => xi + (-(cfg.lr * cfg.weight_decay)) * xi) =
      fun yi => yi - cfg.lr * cfg.weight_decay * yi := by
    funext xi
    ring
  rw [hdec]

/-! ### C1: the moment-based parameter update formula -/

/-- C1: with no weight decay in play, one step updates a dense-gradient
parameter element-wise as
`param - step_size * exp_avg / (sqrt(exp_avg_sq) + eps)`, where the
moments are the already-updated ones stored back into the state and the
epsilon sits outside the square root. -/
theorem adamw_param_update_formula (sqrtA : ℚ → ℚ) (cfg : Config)
    (grads : ℕ → Option Grad) (p : ℕ) (s : Store) (g : Tensor)
    (h : grads p = some (.dense g)) (hwd : cfg.weight_decay = 0) :
    ∃ s' st1, stepParam sqrtA cfg grads p s = .ok s' ∧ s'.st p = some st1 ∧
      s'.params p = List.zipWith3
        (fun xi mi vi => xi - stepSize sqrtA cfg st1.step * mi / (sqrtA vi + cfg.eps))
        (s.params p) st1.exp_avg st1.exp_avg_sq := by
  refine ⟨_, ((s.st p).getD (initState (s.params p))).update cfg g,
    stepParam_dense h, by simp, ?_⟩
  simp [paramUpdate_eq, hwd]

/-- Witness for C1: a concrete one-element parameter with a dense
gradient, evaluated with the exact rational square root. -/
theorem adamw_param_update_formula_witness :
    ∃ s' st1,
      stepParam ratSqrt
        { lr := 1, beta1 := 1/2, beta2 := 24/25, eps := 1, weight_decay := 0,
          correct_bias := true }
        (fun _ => some (.dense [1])) 0
        { params := fun _ => [0], st := fun _ => none } = .ok s' ∧
      s'.st 0 = some st1 ∧
      s'.params 0 = List.zipWith3
        (fun xi mi vi => xi - stepSize ratSqrt
          { lr := 1, beta1 := 1/2, beta2 := 24/25, eps := 1, weight_decay := 0,
            correct_bias := true } st1.step * mi / (ratSqrt vi + 1))
        [0] st1.exp_avg st1.exp_avg_sq :=
  adamw_param_update_formula ratSqrt _ _ 0 _ [1] rfl rfl

/-! ### C2: step count increment and moment updates -/

/-- C2: each step first increments the parameter's step count and updates
the moments element-wise as `exp_avg ← beta1*exp_avg + (1-beta1)*grad`
and `exp_avg_sq ← beta2*exp_avg_sq + (1-beta2)*grad²`; from freshly
created all-zero state this gives `step_count = 1`,
`exp_avg = (1-beta1)*grad`, `exp_avg_sq = (1-beta2)*grad²`, hence
`0.1*grad` and `0.001*grad²` at the default betas. -/
theorem adamw_moment_update (sqrtA : ℚ → ℚ) (cfg : Config) (grads : ℕ → Option Grad)
    (p : ℕ) (s : Store) (g : Tensor) (h : grads p = some (.dense g)) :
    ∃ s' st1, stepParam sqrtA cfg grads p s = .ok s' ∧ s'.st p = some st1 ∧
      st1.step = ((s.st p).getD (initState (s.params p))).step + 1 ∧
      st1.exp_avg = List.zipWith (fun mi gi => cfg.beta1 * mi + (1 - cfg.beta1) * gi)
        ((s.st p).getD (initState (s.params p))).exp_avg g ∧
      st1.exp_avg_sq = List.zipWith (fun vi gi => cfg.beta2 * vi + (1 - cfg.beta2) * gi ^ 2)
        ((s.st p).getD (initState (s.params p))).exp_avg_sq g ∧
      (s.st p = none → g.length = (s.params p).length →
        st1.step = 1 ∧
        st1.exp_avg = g.map (fun gi => (1 - cfg.beta1) * gi) ∧
        st1.exp_avg_sq = g.map (fun gi => (1 - cfg.beta2) * gi ^ 2) ∧
        (cfg.beta1 = 9/10 → st1.exp_avg = g.map (fun gi => (1/10) * gi)) ∧
        (cfg.beta2 = 999/1000 → st1.exp_avg_sq = g.map (fun gi => (1/1000) * gi ^ 2))) := by
  refine ⟨_, ((s.st p).getD (initState (s.params p))).update cfg g,
    stepParam_dense h, by simp, rfl, rfl, rfl, ?_⟩
  intro hnone hlen
  have hg : (s.st p).getD (initState (s.params p)) = initState (s.params p) := by
    rw [hnone]
    rfl
  refine ⟨?_, ?_, ?_, ?_, ?_⟩
  · rw [hg]
    rfl
  · rw [hg]
    show List.zipWith _ (List.replicate (s.params p).length 0) g = _
    rw [zipWith_replicate_left_eq _ 0 g _ hlen.symm]
    congr 1
    funext gi
    show cfg.beta1 * 0 + (1 - cfg.beta1) * gi = (1 - cfg.beta1) * gi
    ring
  · rw [hg]
    show List.zipWith _ (List.replicate (s.params p).length 0) g = _
    rw [zipWith_replicate_left_eq _ 0 g _ hlen.symm]
    congr 1
    funext gi
    show cfg.beta2 * 0 + (1 - cfg.beta2) * gi ^ 2 = (1 - cfg.beta2) * gi ^ 2
    ring
  · intro hb1
    rw [hg]
    show List.zipWith _ (List.replicate (s.params p).length 0) g = _
    rw [zipWith_replicate_left_eq _ 0 g _ hlen.symm]
    congr 1
    funext gi
    show cfg.beta1 * 0 + (1 - cfg.beta1) * gi = (1/10) * gi
    rw [hb1]
    ring
  · intro hb2
    rw [hg]
    show List.zipWith _ (List.replicate (s.params p).length 0) g = _
    rw [zipWith_replicate_left_eq _ 0 g _ hlen.symm]
    congr 1
    funext gi
    show cfg.beta2 * 0 + (1 - cfg.beta2) * gi ^ 2 = (1/1000) * gi ^ 2
    rw [hb2]
    ring

/-- Witness for C2: a two-element parameter with fresh state and the
default betas. -/
theorem adamw_moment_update_witness :
    ∃ s' st1,
      stepParam ratSqrt
        { lr := 1/1000, beta1 := 9/10, beta2 := 999/1000, eps := 1/1000000,
          weight_decay := 0, correct_bias := true }
        (fun _ => some (.dense [1/2, 3])) 0
        { params := fun _ => [1, -1], st := fun _ => none } = .ok s' ∧
      s'.st 0 = some st1 ∧
      st1.step = (initState [1, -1]).step + 1 ∧
      st1.exp_avg = List.zipWith (fun mi gi => (9/10) * mi + (1 - 9/10) * gi)
        (initState [1, -1]).exp_avg [1/2, 3] ∧
      st1.exp_avg_sq = List.zipWith (fun vi gi => (999/1000) * vi + (1 - 999/1000) * gi ^ 2)
        (initState [1, -1]).exp_avg_sq [1/2, 3] ∧
      ((none : Option ParamState) = none →
        ([1/2, 3] : Tensor).length = ([1, -1] : Tensor).length →
        st1.step = 1 ∧
        st1.exp_avg = ([1/2, 3] : Tensor).map (fun gi => (1 - 9/10) * gi) ∧
        st1.exp_avg_sq = ([1/2, 3] : Tensor).map (fun gi => (1 - 999/1000) * gi ^ 2) ∧
        ((9/10 : ℚ) = 9/10 →
          st1.exp_avg = ([1/2, 3] : Tensor).map (fun gi => (1/10) * gi)) ∧
        ((999/1000 : ℚ) = 999/1000 →
          st1.exp_avg_sq = ([1/2, 3] : Tensor).map (fun gi => (1/1000) * gi ^ 2))) :=
  adamw_moment_update ratSqrt
    { lr := 1/1000, beta1 := 9/10, beta2 := 999/1000, eps := 1/1000000,
      weight_decay := 0, correct_bias := true }
    (fun _ => some (.dense [1/2, 3])) 0
    { params := fun _ => [1, -1], st := fun _ => none } [1/2, 3] rfl

/-! ### C3: the effective step size and its bias correction -/

/-- C3: the step size used by the update is computed from the
post-increment step count; with `correct_bias` it equals
`lr * sqrt(1 - beta2^t) / (1 - beta1^t)`, and without it it equals the
learning rate for every step count. -/
theorem adamw_step_size_bias_correction (sqrtA : ℚ → ℚ) (cfg : Config)
    (grads : ℕ → Option Grad) (p : ℕ) (s : Store) (g : Tensor)
    (h : grads p = some (.dense g)) :
    ∃ s' st1, stepParam sqrtA cfg grads p s = .ok s' ∧ s'.st p = some st1 ∧
      st1.step = ((s.st p).getD (initState (s.params p))).step + 1 ∧
      (cfg.correct_bias = true →
        stepSize sqrtA cfg st1.step =
          cfg.lr * sqrtA (1 - cfg.beta2 ^ st1.step) / (1 - cfg.beta1 ^ st1.step)) ∧
      (cfg.correct_bias = false → ∀ t : ℕ, stepSize sqrtA cfg t = cfg.lr) ∧
      s'.params p =
        (let y := List.zipWith3
            (fun xi mi vi => xi - stepSize sqrtA cfg st1.step * mi / (sqrtA vi + cfg.eps))
            (s.params p) st1.exp_avg st1.exp_avg_sq
         if cfg.weight_decay ≠ 0 then
           y.map (fun yi => yi - cfg.lr * cfg.weight_decay * yi)
         else y) := by
  refine ⟨_, ((s.st p).getD (initState (s.params p))).update cfg g,
    stepParam_dense h, by simp, rfl, ?_, ?_, ?_⟩
  · intro hcb
    simp [stepSize, hcb]
  · intro hcb t
    simp [stepSize, hcb]
  · simp [paramUpdate_eq]

/-- Witness for C3 at a concrete bias-corrected configuration. -/
theorem adamw_step_size_bias_correction_witness :
    ∃ s' st1,
      stepParam ratSqrt
        { lr := 1, beta1 := 1/2, beta2 := 24/25, eps := 1, weight_decay := 0,
          correct_bias := true }
        (fun _ => some (.dense [1])) 0
        { params := fun _ => [0], st := fun _ => none } = .ok s' ∧
      s'.st 0 = some st1 ∧
      st1.step = (((fun _ => (none : Option ParamState)) 0).getD (initState [0])).step + 1 ∧
      (true = true →
        stepSize ratSqrt
          { lr := 1, beta1 := 1/2, beta2 := 24/25, eps := 1, weight_decay := 0,
            correct_bias := true } st1.step =
          1 * ratSqrt (1 - (24/25) ^ st1.step) / (1 - (1/2) ^ st1.step)) ∧
      (true = false → ∀ t : ℕ,
        stepSize ratSqrt
          { lr := 1, beta1 := 1/2, beta2 := 24/25, eps := 1, weight_decay := 0,
            correct_bias := true } t = 1) ∧
      s'.params 0 =
        (let y := List.zipWith3
            (fun xi mi vi => xi - stepSize ratSqrt
              { lr := 1, beta1 := 1/2, beta2 := 24/25, eps := 1, weight_decay := 0,
                correct_bias := true } st1.step * mi / (ratSqrt vi + 1))
            [0] st1.exp_avg st1.exp_avg_sq
         if (0 : ℚ) ≠ 0 then y.map (fun yi => yi - 1 * 0 * yi) else y) :=
  adamw_step_size_bias_correction ratSqrt
    { lr := 1, beta1 := 1/2, beta2 := 24/25, eps := 1, weight_decay := 0,
      correct_bias := true }
    (fun _ => some (.dense [1])) 0
    { params := fun _ => [0], st := fun _ => none } [1] rfl

/-! ### C4: decoupled weight decay comes last and uses the raw lr -/

/-- C4: when `weight_decay ≠ 0` the shrinkage
`param ← param - lr * weight_decay * param` is applied to the value
already produced by the moment-based update of the same step (so
strictly after it) and its coefficient is the group's original learning
rate, not the bias-corrected step size; when `weight_decay = 0` no decay
is applied. -/
theorem adamw_weight_decay_decoupled (sqrtA : ℚ → ℚ) (cfg : Config)
    (grads : ℕ → Option Grad) (p : ℕ) (s : Store) (g : Tensor)
    (h : grads p = some (.dense g)) :
    ∃ s' st1, stepParam sqrtA cfg grads p s = .ok s' ∧ s'.st p = some st1 ∧
      (cfg.weight_decay ≠ 0 →
        s'.params p = (List.zipWith3
            (fun xi mi vi => xi - stepSize sqrtA cfg st1.step * mi / (sqrtA vi + cfg.eps))
            (s.params p) st1.exp_avg st1.exp_avg_sq).map
          (fun yi => yi - cfg.lr * cfg.weight_decay * yi)) ∧
      (cfg.weight_decay = 0 →
        s'.params p = List.zipWith3
          (fun xi mi vi => xi - stepSize sqrtA cfg st1.step * mi / (sqrtA vi + cfg.eps))
          (s.params p) st1.exp_avg st1.exp_avg_sq) := by
  refine ⟨_, ((s.st p).getD (initState (s.params p))).update cfg g,
    stepParam_dense h, by simp, ?_, ?_⟩
  · intro hwd
    simp [paramUpdate_eq, hwd]
  · intro hwd
    simp [paramUpdate_eq, hwd]

/-- Witness for C4 at a nonzero weight decay. -/
theorem adamw_weight_decay_decoupled_witness :
    ∃ s' st1,
      stepParam ratSqrt
        { lr := 1, beta1 := 1/2, beta2 := 24/25, eps := 1, weight_decay := 1/100,
          correct_bias := true }
        (fun _ => some (.dense [1])) 0
        { params := fun _ => [0], st := fun _ => none } = .ok s' ∧
      s'.st 0 = some st1 ∧
      ((1/100 : ℚ) ≠ 0 →
        s'.params 0 = (List.zipWith3
            (fun xi mi vi => xi - stepSize ratSqrt
              { lr := 1, beta1 := 1/2, beta2 := 24/25, eps := 1, weight_decay := 1/100,
                correct_bias := true } st1.step * mi / (ratSqrt vi + 1))
            [0] st1.exp_avg st1.exp_avg_sq).map
          (fun yi => yi - 1 * (1/100) * yi)) ∧
      ((1/100 : ℚ) = 0 →
        s'.params 0 = List.zipWith3
          (fun xi mi vi => xi - stepSize ratSqrt
            { lr := 1, beta1 := 1/2, beta2 := 24/25, eps := 1, weight_decay := 1/100,
              correct_bias := true } st1.step * mi / (ratSqrt vi + 1))
          [0] st1.exp_avg st1.exp_avg_sq) :=
  adamw_weight_decay_decoupled ratSqrt
    { lr := 1, beta1 := 1/2, beta2 := 24/25, eps := 1, weight_decay := 1/100,
      correct_bias := true }
    (fun _ => some (.dense [1])) 0
    { params := fun _ => [0], st := fun _ => none } [1] rfl

/-! ### Loop-unfolding lemmas -/

/-- Inner-loop unfolding when the head parameter is processed normally. -/
theorem runParams_cons_ok {sqrtA cfg grads p ps s s'}
    (h : stepParam sqrtA cfg grads p s = .ok s') :
    runParams sqrtA cfg grads (p :: ps) s = runParams sqrtA cfg grads ps s' := by
  rw [runParams, h]

/-- Inner-loop unfolding when the head parameter raises. -/
theorem runParams_cons_raised {sqrtA cfg grads p ps s s' e}
    (h : stepParam sqrtA cfg grads p s = .raised e s') :
    runParams sqrtA cfg grads (p :: ps) s = .raised e s' := by
  rw [runParams, h]

/-- Outer-loop unfolding when the head group completes. -/
theorem runGroups_cons_ok {sqrtA grads g gs s s'}
    (h : runParams sqrtA g.cfg grads g.params s = .ok s') :
    runGroups sqrtA grads (g :: gs) s = runGroups sqrtA grads gs s' := by
  rw [runGroups, h]

/-- Outer-loop unfolding when the head group raises. -/
theorem runGroups_cons_raised {sqrtA grads g gs s s' e}
    (h : runParams sqrtA g.cfg grads g.params s = .raised e s') :
    runGroups sqrtA grads (g :: gs) s = .raised e s' := by
  rw [runGroups, h]

/-- A run over parameters none of which has a sparse gradient never
raises. -/
theorem runParams_ok_of_noSparse (sqrtA : ℚ → ℚ) (cfg : Config)
    (grads : ℕ → Option Grad) (ps : List ℕ)
    (h : ∀ q ∈ ps, grads q ≠ some .sparse) (s : Store) :
    ∃ s', runParams sqrtA cfg grads ps s = .ok s' := by
  induction ps generalizing s with
  | nil => exact ⟨s, rfl⟩
  | cons p ps ih =>
      have htl : ∀ q ∈ ps, grads q ≠ some Grad.sparse :=
        fun q hq => h q (List.mem_cons_of_mem p hq)
      match hg : grads p with
      | none =>
          rw [runParams_cons_ok (stepParam_nograd hg)]
          exact ih htl s
      | some .sparse => exact absurd hg (h p (List.mem_cons_self p ps))
      | some (.dense g) =>
          rw [runParams_cons_ok (stepParam_dense hg)]
          exact ih htl _

/-- A run over groups none of whose parameters has a sparse gradient
never raises. -/
theorem runGroups_ok_of_noSparse (sqrtA : ℚ → ℚ) (grads : ℕ → Option Grad)
    (gs : List ParamGroup)
    (h : ∀ g ∈ gs, ∀ q ∈ g.params, grads q ≠ some .sparse) (s : Store) :
    ∃ s', runGroups sqrtA grads gs s = .ok s' := by
  induction gs generalizing s with
  | nil => exact ⟨s, rfl⟩
  | cons g gs ih =>
      obtain ⟨s1, hs1⟩ := runParams_ok_of_noSparse sqrtA g.cfg grads
        g.params (h g (List.mem_cons_self g gs)) s
      rw [runGroups_cons_ok hs1]
      exact ih (fun g' hg' => h g' (List.mem_cons_of_mem g hg')) s1

/-- Splitting a completed prefix off the outer loop. -/
theorem runGroups_append_ok {sqrtA grads} (gs1 gs2 : List ParamGroup) (s s1 : Store)
    (h : runGroups sqrtA grads gs1 s = .ok s1) :
    runGroups sqrtA grads (gs1 ++ gs2) s = runGroups sqrtA grads gs2 s1 := by
  induction gs1 generalizing s with
  | nil =>
      cases h
      rfl
  | cons g gs ih =>
      rw [List.cons_append]
      cases hr : runParams sqrtA g.cfg grads g.params s with
      | ok s' =>
          rw [runGroups_cons_ok hr] at h
          rw [runGroups_cons_ok hr]
          exact ih s' h
      | raised e s' =>
          rw [runGroups_cons_raised hr] at h
          exact Outcome.noConfusion h

/-- Splitting a completed prefix off the inner loop. -/
theorem runParams_append_ok {sqrtA cfg grads} (ps1 ps2 : List ℕ) (s s1 : Store)
    (h : runParams sqrtA cfg grads ps1 s = .ok s1) :
    runParams sqrtA cfg grads (ps1 ++ ps2) s = runParams sqrtA cfg grads ps2 s1 := by
  induction ps1 generalizing s with
  | nil =>
      cases h
      rfl
  | cons p ps ih =>
      rw [List.cons_append]
      cases hr : stepParam sqrtA cfg grads p s with
      | ok s' =>
          rw [runParams_cons_ok hr] at h
          rw [runParams_cons_ok hr]
          exact ih s' h
      | raised e s' =>
          rw [runParams_cons_raised hr] at h
          exact Outcome.noConfusion h

/-- A parameter with no gradient is untouched by the inner loop, wherever
it occurs. -/
theorem runParams_nograd (sqrtA : ℚ → ℚ) (cfg : Config) (grads : ℕ → Option Grad)
    (ps : List ℕ) (s : Store) (p : ℕ)
    (h : grads p = none) :
    ((runParams sqrtA cfg grads ps s).val).params p = s.params p ∧
      ((runParams sqrtA cfg grads ps s).val).st p = s.st p := by
  induction ps generalizing s with
  | nil => exact ⟨rfl, rfl⟩
  | cons q ps ih =>
      by_cases hqp : q = p
      · subst hqp
        rw [runParams_cons_ok (stepParam_nograd h)]
        exact ih s
      · have h1 := stepParam_apart sqrtA cfg grads q s p (fun hh => hqp hh.symm)
        cases hs : stepParam sqrtA cfg grads q s with
        | ok s' =>
            rw [runParams_cons_ok hs]
            rw [hs] at h1
            exact ⟨(ih s').1.trans h1.1, (ih s').2.trans h1.2⟩
        | raised e s' =>
            rw [runParams_cons_raised hs]
            rw [hs] at h1
            exact h1

/-- A parameter with no gradient is untouched by the whole pass. -/
theorem runGroups_nograd (sqrtA : ℚ → ℚ) (grads : ℕ → Option Grad)
    (gs : List ParamGroup) (s : Store) (p : ℕ)
    (h : grads p = none) :
    ((runGroups sqrtA grads gs s).val).params p = s.params p ∧
      ((runGroups sqrtA grads gs s).val).st p = s.st p := by
  induction gs generalizing s with
  | nil => exact ⟨rfl, rfl⟩
  | cons g gs ih =>
      have h1 := runParams_nograd sqrtA g.cfg grads g.params s p h
      cases hs : runParams sqrtA g.cfg grads g.params s with
      | ok s' =>
          rw [runGroups_cons_ok hs]
          rw [hs] at h1
          exact ⟨(ih s').1.trans h1.1, (ih s').2.trans h1.2⟩
      | raised e s' =>
          rw [runGroups_cons_raised hs]
          rw [hs] at h1
          exact h1

/-! ### C7: parameters without a gradient are never touched -/

/-- C7: a parameter with no attached gradient keeps its values and gets
no per-parameter state (and hence no step count) across any number of
repeated step passes. -/
theorem adamw_nograd_frame (sqrtA : ℚ → ℚ) (grads : ℕ → Option Grad)
    (groups : List ParamGroup) (s : Store) (p : ℕ) (h : grads p = none) (n : ℕ) :
    (stepLoop sqrtA grads groups n s).params p = s.params p ∧
      (stepLoop sqrtA grads groups n s).st p = s.st p := by
  induction n generalizing s with
  | zero => exact ⟨rfl, rfl⟩
  | succ n ih =>
      have h1 := runGroups_nograd sqrtA grads groups s p h
      have h2 := ih ((runGroups sqrtA grads groups s).val)
      exact ⟨h2.1.trans h1.1, h2.2.trans h1.2⟩

/-- Witness for C7: three passes over a two-parameter group where
parameter 0 has no gradient (parameter 1 does) leave parameter 0 and its
absent state unchanged. -/
theorem adamw_nograd_frame_witness :
    (stepLoop ratSqrt
      (fun q => if q = 0 then none else some (.dense [1]))
      [{ cfg := { lr := 1, beta1 := 1/2, beta2 := 24/25, eps := 1, weight_decay := 0,
                  correct_bias := true }, params := [0, 1] }] 3
      { params := fun _ => [5], st := fun _ => none }).params 0 = [5] ∧
    (stepLoop ratSqrt
      (fun q => if q = 0 then none else some (.dense [1]))
      [{ cfg := { lr := 1, beta1 := 1/2, beta2 := 24/25, eps := 1, weight_decay := 0,
                  correct_bias := true }, params := [0, 1] }] 3
      { params := fun _ => [5], st := fun _ => none }).st 0 = none :=
  adamw_nograd_frame ratSqrt
    (fun q => if q = 0 then none else some (.dense [1]))
    [{ cfg := { lr := 1, beta1 := 1/2, beta2 := 24/25, eps := 1, weight_decay := 0,
                correct_bias := true }, params := [0, 1] }]
    { params := fun _ => [5], st := fun _ => none } 0 rfl 3

/-! ### C5: a sparse gradient aborts the step, keeping earlier updates -/

/-- C5: when the flattened iteration order reaches a parameter with a
sparse gradient (groups `gpre` then the prefix `pre` of group `g` having
no sparse gradients), `step()` raises `UnsupportedGradientLayout`; the
raised outcome carries exactly the store produced by processing `gpre`
and `pre`, so parameters iterated earlier keep their updates while every
parameter not iterated before the error (the offending one included)
keeps its old value and state. -/
theorem adamw_sparse_grad_aborts {C L : Type} (sqrtA : ℚ → ℚ) (opt : AdamW)
    (grads : ℕ → Option Grad) (c : C) (params : ℕ → Tensor)
    (gpre : List ParamGroup) (g : ParamGroup) (gpost : List ParamGroup)
    (pre : List ℕ) (p : ℕ) (post : List ℕ)
    (hopt : opt.groups = gpre ++ g :: gpost) (hgp : g.params = pre ++ p :: post)
    (h1 : ∀ g' ∈ gpre, ∀ q ∈ g'.params, grads q ≠ some .sparse)
    (h2 : ∀ q ∈ pre, grads q ≠ some .sparse)
    (hp : grads p = some .sparse) :
    ∃ s1 s2,
      runGroups sqrtA grads gpre { params := params, st := opt.st } = .ok s1 ∧
      runParams sqrtA g.cfg grads pre s1 = .ok s2 ∧
      (AdamW.step (C := C) (L := L) sqrtA opt grads none c params).2 =
        .raised .unsupportedSparse s2 ∧
      (∀ q, (∀ g' ∈ gpre, q ∉ g'.params) → q ∉ pre →
        s2.params q = params q ∧ s2.st q = opt.st q) := by
  obtain ⟨s1, hs1⟩ := runGroups_ok_of_noSparse sqrtA grads gpre h1
    { params := params, st := opt.st }
  obtain ⟨s2, hs2⟩ := runParams_ok_of_noSparse sqrtA g.cfg grads pre h2 s1
  refine ⟨s1, s2, hs1, hs2, ?_, ?_⟩
  · show runGroups sqrtA grads opt.groups { params := params, st := opt.st } =
      .raised .unsupportedSparse s2
    rw [hopt, runGroups_append_ok gpre (g :: gpost) _ s1 hs1]
    have hgpar : runParams sqrtA g.cfg grads g.params s1 =
        .raised .unsupportedSparse s2 := by
      rw [hgp, runParams_append_ok pre (p :: post) s1 s2 hs2,
        runParams_cons_raised (stepParam_sparse hp)]
    rw [runGroups_cons_raised hgpar]
  · intro q hq1 hq2
    have hA := runGroups_not_mem sqrtA grads gpre
      { params := params, st := opt.st } q hq1
    have hB := runParams_not_mem sqrtA g.cfg grads pre s1 q hq2
    rw [hs1] at hA
    rw [hs2] at hB
    exact ⟨hB.1.trans hA.1, hB.2.trans hA.2⟩

/-- Witness for C5: two parameters, the second with a sparse gradient —
the first keeps its update, the second is untouched and the call
raises. -/
theorem adamw_sparse_grad_aborts_witness :
    ∃ s1 s2,
      runGroups ratSqrt
        (fun q => if q = 1 then some .sparse else some (.dense [1]))
        [] { params := fun _ => [0],
             st := fun _ => none } = .ok s1 ∧
      runParams ratSqrt
        { lr := 1, beta1 := 1/2, beta2 := 24/25, eps := 1, weight_decay := 0,
          correct_bias := true }
        (fun q => if q = 1 then some .sparse else some (.dense [1]))
        [0] s1 = .ok s2 ∧
      (AdamW.step (C := Unit) (L := Unit) ratSqrt
        { groups :=
            [{ cfg :=
                { lr := 1, beta1 := 1/2, beta2 := 24/25, eps := 1, weight_decay := 0,
                  correct_bias := true },
               params := [0, 1, 2] }],
          st := fun _ => none }
        (fun q => if q = 1 then some .sparse else some (.dense [1]))
        none () (fun _ => [0])).2 = .raised .unsupportedSparse s2 ∧
      (∀ q, (∀ g' ∈ ([] : List ParamGroup), q ∉ g'.params) → q ∉ ([0] : List ℕ) →
        s2.params q = [0] ∧ s2.st q = none) :=
  adamw_sparse_grad_aborts ratSqrt
    { groups :=
        [{ cfg :=
            { lr := 1, beta1 := 1/2, beta2 := 24/25, eps := 1, weight_decay := 0,
              correct_bias := true },
           params := [0, 1, 2] }],
      st := fun _ => none }
    (fun q => if q = 1 then some .sparse else some (.dense [1]))
    () (fun _ => [0]) []
    { cfg :=
        { lr := 1, beta1 := 1/2, beta2 := 24/25, eps := 1, weight_decay := 0,
          correct_bias := true },
      params := [0, 1, 2] }
    [] [0] 1 [2] rfl rfl
    (by intro g' hg'; cases hg')
    (by intro q hq; simp at hq; subst hq; simp)
    (by simp)

/-! ### C8: the optional closure -/

/-- C8: a supplied closure is invoked exactly once, on the state as it is
at the start of the call (its single invocation is visible in the
returned closure state), its return value is the value `step()` returns,
and the parameter/state pass is the same with or without a closure; with
no closure, `step()` returns no value.  The final conjunct instantiates
the closure with an invocation counter: one call increments it exactly
once. -/
theorem adamw_closure_semantics {C L : Type} (sqrtA : ℚ → ℚ) (opt : AdamW)
    (grads : ℕ → Option Grad) (f : C → L × C) (c : C) (params : ℕ → Tensor) :
    (AdamW.step sqrtA opt grads (some f) c params).1 = (some (f c).1, (f c).2) ∧
    (AdamW.step sqrtA opt grads (some f) c params).2 =
      (AdamW.step (C := C) (L := L) sqrtA opt grads none c params).2 ∧
    (AdamW.step (C := C) (L := L) sqrtA opt grads none c params).1 = (none, c) ∧
    (∀ k : ℕ, (AdamW.step (L := ℕ) sqrtA opt grads
      (some (fun n => (n, n + 1))) k params).1 = (some k, k + 1)) :=
  ⟨rfl, rfl, rfl, fun _ => rfl⟩

/-! ### C9: two steps are not one doubled step -/

/-- C9: with bias correction on, there are a parameter value and a
gradient for which two consecutive steps with that same gradient agree
with neither a single step at doubled learning rate (hence doubled step
size, since the step size is linear in the learning rate) nor a single
step with the gradient doubled: the two calls use different
`step_count`-dependent corrections.  The hypotheses pin the abstract
square root at the three perfect squares the runs encounter. -/
theorem adamw_two_steps_not_doubled (sqrtA : ℚ → ℚ)
    (h1 : sqrtA (1/25) = 1/5) (h2 : sqrtA (49/625) = 7/25) (h3 : sqrtA (4/25) = 2/5) :
    ∃ x g : ℚ,
      ((stepLoop sqrtA (fun _ => some (.dense [g]))
          [{ cfg :=
              { lr := 1, beta1 := 1/2, beta2 := 24/25, eps := 1, weight_decay := 0,
                correct_bias := true },
             params := [0] }] 2
          { params := fun _ => [x], st := fun _ => none }).params 0 ≠
        ((runGroups sqrtA (fun _ => some (.dense [g]))
          [{ cfg :=
              { lr := 2, beta1 := 1/2, beta2 := 24/25, eps := 1, weight_decay := 0,
                correct_bias := true },
             params := [0] }]
          { params := fun _ => [x], st := fun _ => none }).val).params 0) ∧
      ((stepLoop sqrtA (fun _ => some (.dense [g]))
          [{ cfg :=
              { lr := 1, beta1 := 1/2, beta2 := 24/25, eps := 1, weight_decay := 0,
                correct_bias := true },
             params := [0] }] 2
          { params := fun _ => [x], st := fun _ => none }).params 0 ≠
        ((runGroups sqrtA (fun _ => some (.dense [2 * g]))
          [{ cfg :=
              { lr := 1, beta1 := 1/2, beta2 := 24/25, eps := 1, weight_decay := 0,
                correct_bias := true },
             params := [0] }]
          { params := fun _ => [x], st := fun _ => none }).val).params 0) := by
  refine ⟨0, 1, ?_, ?_⟩
  · have hL : (stepLoop sqrtA (fun _ => some (.dense [1]))
        [{ cfg :=
            { lr := 1, beta1 := 1/2, beta2 := 24/25, eps := 1, weight_decay := 0,
              correct_bias := true },
           params := [0] }] 2
        { params := fun _ => [(0 : ℚ)], st := fun _ => none }).params 0 = [-37/96] := by
      norm_num [stepLoop, runGroups, runParams, stepParam, paramUpdate, stepSize,
        ParamState.update, initState, zerosLike, Outcome.val, List.zipWith3, h1, h2]
    have hR : ((runGroups sqrtA (fun _ => some (.dense [1]))
        [{ cfg :=
            { lr := 2, beta1 := 1/2, beta2 := 24/25, eps := 1, weight_decay := 0,
              correct_bias := true },
           params := [0] }]
        { params := fun _ => [(0 : ℚ)], st := fun _ => none }).val).params 0 = [-1/3] := by
      norm_num [runGroups, runParams, stepParam, paramUpdate, stepSize,
        ParamState.update, initState, zerosLike, Outcome.val, List.zipWith3, h1]
    rw [hL, hR]
    norm_num
  · have hL : (stepLoop sqrtA (fun _ => some (.dense [1]))
        [{ cfg :=
            { lr := 1, beta1 := 1/2, beta2 := 24/25, eps := 1, weight_decay := 0,
              correct_bias := true },
           params := [0] }] 2
        { params := fun _ => [(0 : ℚ)], st := fun _ => none }).params 0 = [-37/96] := by
      norm_num [stepLoop, runGroups, runParams, stepParam, paramUpdate, stepSize,
        ParamState.update, initState, zerosLike, Outcome.val, List.zipWith3, h1, h2]
    have hR : ((runGroups sqrtA (fun _ => some (.dense [2 * 1]))
        [{ cfg :=
            { lr := 1, beta1 := 1/2, beta2 := 24/25, eps := 1, weight_decay := 0,
              correct_bias := true },
           params := [0] }]
        { params := fun _ => [(0 : ℚ)], st := fun _ => none }).val).params 0 = [-2/7] := by
      norm_num [runGroups, runParams, stepParam, paramUpdate, stepSize,
        ParamState.update, initState, zerosLike, Outcome.val, List.zipWith3, h1, h3]
    rw [hL, hR]
    norm_num

theorem sqrtW_eval1 : sqrtW (1/25) = 1/5 := by norm_num [sqrtW]

theorem sqrtW_eval2 : sqrtW (49/625) = 7/25 := by norm_num [sqrtW]

theorem sqrtW_eval3 : sqrtW (4/25) = 2/5 := by norm_num [sqrtW]

/-- Witness for C9: instantiating the backend square root with the exact
table of square roots, at parameter `0` and gradient `1` the three runs
are pairwise distinguishable concretely. -/
theorem adamw_two_steps_not_doubled_witness :
    ∃ x g : ℚ,
      ((stepLoop sqrtW (fun _ => some (.dense [g]))
          [{ cfg :=
              { lr := 1, beta1 := 1/2, beta2 := 24/25, eps := 1, weight_decay := 0,
                correct_bias := true },
             params := [0] }] 2
          { params := fun _ => [x], st := fun _ => none }).params 0 ≠
        ((runGroups sqrtW (fun _ => some (.dense [g]))
          [{ cfg :=
              { lr := 2, beta1 := 1/2, beta2 := 24/25, eps := 1, weight_decay := 0,
                correct_bias := true },
             params := [0] }]
          { params := fun _ => [x], st := fun _ => none }).val).params 0) ∧
      ((stepLoop sqrtW (fun _ => some (.dense [g]))
          [{ cfg :=
              { lr := 1, beta1 := 1/2, beta2 := 24/25, eps := 1, weight_decay := 0,
                correct_bias := true },
             params := [0] }] 2
          { params := fun _ => [x], st := fun _ => none }).params 0 ≠
        ((runGroups sqrtW (fun _ => some (.dense [2 * g]))
          [{ cfg :=
              { lr := 1, beta1 := 1/2, beta2 := 24/25, eps := 1, weight_decay := 0,
                correct_bias := true },
             params := [0] }]
          { params := fun _ => [x], st := fun _ => none }).val).params 0) :=
  adamw_two_steps_not_doubled sqrtW sqrtW_eval1 sqrtW_eval2 sqrtW_eval3
